import Mathlib

/-!
Verification development for the nftables dataplane reconciler
(`felix/nftables/rules.go` and `felix/nftables/table.go`).

The Go code is shallowly embedded: pure helpers become Lean functions,
the `Table` struct becomes a record, map/set fields become association
lists, and the stateful methods become explicit state-passing functions.
Machine integers are modelled as `Nat`/`Int` (durations in nanoseconds);
32-bit overflow in the hash engine is explicit via `% 2^32`.  Code paths
that panic in Go (index out of range) are modelled with `Option`, `none`
meaning the panic.  All definitions are executable so that concrete
scenarios evaluate by `decide`.
-/

/-! ## SHA-224 (Go `crypto/sha256.New224`), byte level, Nat-based -/

/-- Truncate to a 32-bit word. -/
def w32 (n : Nat) : Nat := n % 4294967296

/-- 32-bit rotate right. -/
def rotr32 (k n : Nat) : Nat := w32 ((n >>> k) ||| (n <<< (32 - k)))

/-- The 64 SHA-256 round constants, packed big-endian into a single
integer: round constant i sits at bit offset 32*(63-i). -/
def shaKbits : Nat := 0x428a2f9871374491b5c0fbcfe9b5dba53956c25b59f111f1923f82a4ab1c5ed5d807aa9812835b01243185be550c7dc372be5d7480deb1fe9bdc06a7c19bf174e49b69c1efbe47860fc19dc6240ca1cc2de92c6f4a7484aa5cb0a9dc76f988da983e5152a831c66db00327c8bf597fc7c6e00bf3d5a7914706ca63511429296727b70a852e1b21384d2c6dfc53380d13650a7354766a0abb81c2c92e92722c85a2bfe8a1a81a664bc24b8b70c76c51a3d192e819d6990624f40e3585106aa07019a4c1161e376c082748774c34b0bcb5391c0cb34ed8aa4a5b9cca4f682e6ff3748f82ee78a5636f84c878148cc7020890befffaa4506cebbef9a3f7c67178f2

/-- The round constants as a word list. -/
def shaK : List Nat := (List.range 64).map (fun i => (shaKbits >>> (32 * (63 - i))) % 4294967296)

/-- SHA-224 initial hash state, packed big-endian like `shaKbits`. -/
def sha224InitBits : Nat := 0xc1059ed8367cd5073070dd17f70e5939ffc00b316858151164f98fa7befa4fa4

/-- The initial state as a word list. -/
def sha224Init : List Nat :=
  (List.range 8).map (fun i => (sha224InitBits >>> (32 * (7 - i))) % 4294967296)

/-- Big-endian 8-byte encoding of a (64-bit) length. -/
def be64 (n : Nat) : List Nat :=
  [(n >>> 56) % 256, (n >>> 48) % 256, (n >>> 40) % 256, (n >>> 32) % 256,
   (n >>> 24) % 256, (n >>> 16) % 256, (n >>> 8) % 256, n % 256]

/-- Big-endian 4-byte encoding of a 32-bit word. -/
def be32 (n : Nat) : List Nat := [(n >>> 24) % 256, (n >>> 16) % 256, (n >>> 8) % 256, n % 256]

/-- SHA padding: `0x80`, zeros, then the bit length, to a 64-byte multiple. -/
def shaPad (msg : List Nat) : List Nat :=
  let l := msg.length
  let padLen := (64 - ((l + 9) % 64)) % 64
  msg ++ 0x80 :: List.replicate padLen 0 ++ be64 (8 * l)

/-- Group bytes into big-endian 32-bit words. -/
def bytesToWords : List Nat → List Nat
  | b0 :: b1 :: b2 :: b3 :: rest => (b0 <<< 24 ||| b1 <<< 16 ||| b2 <<< 8 ||| b3) :: bytesToWords rest
  | _ => []

/-- Split into 64-byte blocks (fuel-based so it reduces definitionally). -/
def chunk64 : Nat → List Nat → List (List Nat)
  | _, [] => []
  | 0, _ => []
  | fuel + 1, l => l.take 64 :: chunk64 fuel (l.drop 64)

def smallSigma0 (x : Nat) : Nat := rotr32 7 x ^^^ rotr32 18 x ^^^ (x >>> 3)

def smallSigma1 (x : Nat) : Nat := rotr32 17 x ^^^ rotr32 19 x ^^^ (x >>> 10)

def bigSigma0 (x : Nat) : Nat := rotr32 2 x ^^^ rotr32 13 x ^^^ rotr32 22 x

def bigSigma1 (x : Nat) : Nat := rotr32 6 x ^^^ rotr32 11 x ^^^ rotr32 25 x

/-- Message-schedule extension: appends one word per fuel step (48 steps). -/
def shaExtend : Nat → List Nat → List Nat
  | 0, w => w
  | fuel + 1, w =>
    let i := w.length
    let nw := w32 (smallSigma1 (w.getD (i - 2) 0) + w.getD (i - 7) 0 +
                   smallSigma0 (w.getD (i - 15) 0) + w.getD (i - 16) 0)
    shaExtend fuel (w ++ [nw])

/-- One SHA-256 compression round on state `[a,b,c,d,e,f,g,h]`. -/
def shaRound (st : List Nat) (kw : Nat × Nat) : List Nat :=
  match st with
  | [a, b, c, d, e, f, g, h] =>
    let ch := g ^^^ (e &&& (f ^^^ g))
    let maj := (a &&& b) ||| (c &&& (a ||| b))
    let t1 := w32 (h + bigSigma1 e + ch + kw.1 + kw.2)
    let t2 := w32 (bigSigma0 a + maj)
    [w32 (t1 + t2), a, b, c, w32 (d + t1), e, f, g]
  | _ => st

/-- Compress one 64-byte block into the running state. -/
def shaBlock (st : List Nat) (block : List Nat) : List Nat :=
  let ws := shaExtend 48 (bytesToWords block)
  let fin := (shaK.zip ws).foldl shaRound st
  (st.zip fin).map (fun p => w32 (p.1 + p.2))

/-- SHA-224 digest (28 bytes) of a byte sequence. -/
def sha224 (msg : List Nat) : List Nat :=
  let blocks := chunk64 (msg.length + 73) (shaPad msg)
  let fin := blocks.foldl shaBlock sha224Init
  (fin.take 7).foldr (fun wn acc => be32 wn ++ acc) []

/-! ## Base64 URL-safe raw encoding (Go `base64.RawURLEncoding`) -/

def b64Alphabet : List Char :=
  "ABCDEFGHIJKLMNOPQRSTUVWXYZabcdefghijklmnopqrstuvwxyz0123456789-_".data

/-- Unpadded URL-safe base64 of a byte sequence. -/
def b64url : List Nat → List Char
  | b0 :: b1 :: b2 :: rest =>
    let n := b0 <<< 16 ||| b1 <<< 8 ||| b2
    b64Alphabet.getD (n >>> 18) 'A' :: b64Alphabet.getD ((n >>> 12) % 64) 'A' ::
    b64Alphabet.getD ((n >>> 6) % 64) 'A' :: b64Alphabet.getD (n % 64) 'A' :: b64url rest
  | [b0, b1] =>
    let n := b0 <<< 16 ||| b1 <<< 8
    [b64Alphabet.getD (n >>> 18) 'A', b64Alphabet.getD ((n >>> 12) % 64) 'A',
     b64Alphabet.getD ((n >>> 6) % 64) 'A']
  | [b0] =>
    let n := b0 <<< 16
    [b64Alphabet.getD (n >>> 18) 'A', b64Alphabet.getD ((n >>> 12) % 64) 'A']
  | [] => []

/-! ## Go string primitives -/

/-- UTF-8 encoding of one character (Go `[]byte(string)` byte semantics). -/
def charUtf8 (c : Char) : List Nat :=
  let n := c.toNat
  if n < 0x80 then [n]
  else if n < 0x800 then [0xC0 ||| (n >>> 6), 0x80 ||| (n &&& 0x3F)]
  else if n < 0x10000 then
    [0xE0 ||| (n >>> 12), 0x80 ||| ((n >>> 6) &&& 0x3F), 0x80 ||| (n &&& 0x3F)]
  else
    [0xF0 ||| (n >>> 18), 0x80 ||| ((n >>> 12) &&& 0x3F), 0x80 ||| ((n >>> 6) &&& 0x3F),
     0x80 ||| (n &&& 0x3F)]

/-- Bytes of a string, as Go's `[]byte(s)`. -/
def strBytes (s : String) : List Nat := s.data.foldr (fun c acc => charUtf8 c ++ acc) []

/-- Go `strings.Join(elems, sep)`: interleaves `sep` between all elements,
including empty ones. -/
def stringsJoin (sep : String) : List String → String
  | [] => ""
  | [x] => x
  | x :: xs => x ++ sep ++ stringsJoin sep xs

/-- Helper for Go `strings.Split(s, ":")[0]`: the text before the first
colon (the whole string when there is no colon). -/
def beforeFirstColon (s : String) : String := String.mk (s.data.takeWhile (fun c => c ≠ ':'))

/-- List version of "is a leading segment of". -/
def listStartsWith [BEq α] : List α → List α → Bool
  | _, [] => true
  | [], _ :: _ => false
  | x :: xs, y :: ys => x == y && listStartsWith xs ys

/-- Go `strings.HasPrefix`. -/
def goHasPfx (s pre : String) : Bool := listStartsWith s.data pre.data

/-- Go `strings.TrimPrefix`: drops `pre` from the front of `s` when present,
otherwise returns `s` unchanged. -/
def goTrimPfx (s pre : String) : String :=
  if goHasPfx s pre then String.mk (s.data.drop pre.data.length) else s

namespace NFT

/-! ## Rule and chain value types (`felix/nftables/rules.go`)

`MatchCriteria` and `Action` are collaborator interfaces whose
implementations are outside the two source files.
Modelled from the spec: a match is an opaque renderer exposing a text
fragment and the IP-set names it references; an action is a tagged
variant over action kinds whose `Referrer` capability (one case class)
exposes the name of the chain it jumps/gotos to, and otherwise renders
to an opaque fragment. -/

structure MatchCriteria where
  fragment : String
  ipSetNames : List String
deriving DecidableEq, Repr, Inhabited

/-- Source `MatchCriteria.Render()`: the rendered match fragment. -/
def MatchCriteria.Render (m : MatchCriteria) : String := m.fragment

/-- Modelled from the spec: the action variants; `jumpAct`/`gotoAct` are
the `Referrer` cases, `basic` renders to the stored fragment. -/
inductive Action where
  | jumpAct (target : String)
  | gotoAct (target : String)
  | basic (fragment : String)
deriving DecidableEq, Repr

/-- Source `Action.ToFragment(features)`: the rendered action fragment. -/
def Action.ToFragment : Action → String
  | .jumpAct target => "jump " ++ target
  | .gotoAct target => "goto " ++ target
  | .basic fragment => fragment

/-- The `Referrer` capability: the referenced chain, for the jump/goto
cases only (Go's `r.Action.(Referrer)` type assertion). -/
def Action.referencedChain : Action → Option String
  | .jumpAct target => some target
  | .gotoAct target => some target
  | .basic _ => none

/-- Source `Rule`: match + action (nil-able) + user comment lines. -/
structure Rule where
  Match : MatchCriteria
  Action : Option Action
  Comment : List String
deriving DecidableEq, Repr, Inhabited

/-- Source `knftables.Rule`: the transaction driver's rule record. -/
structure NftRule where
  Chain : String
  Rule : String
  Comment : Option String := none
  Handle : Option Int := none
deriving DecidableEq, Repr

structure Chain where
  Name : String
  Rules : List Rule
deriving DecidableEq, Repr

/-- Complement of `shellUnsafe`: the characters the comment sanitiser
keeps, namely Go's ASCII word characters `[0-9A-Za-z_]` plus space and
the punctuation at-sign, percent, plus, equals, colon, comma, dot,
slash and dash. -/
def commentCharSafe (c : Char) : Bool :=
  ('0' ≤ c && c ≤ '9') || ('A' ≤ c && c ≤ 'Z') || ('a' ≤ c && c ≤ 'z') ||
  c = '_' || c = ' ' || c = '@' || c = '%' || c = '+' || c = '=' || c = ':' ||
  c = ',' || c = '.' || c = '/' || c = '-'

/-- Source `escapeComment`: replaces every unsafe character with `_`. -/
def escapeComment (s : String) : String :=
  String.mk (s.data.map (fun c => if commentCharSafe c then c else '_'))

def maxCommentLen : Nat := 256

/-- Source `truncateComment`: truncates to 256 bytes.  (Go slices bytes; the
output of `escapeComment` is always ASCII, so bytes = characters here.) -/
def truncateComment (s : String) : String :=
  if s.data.length > maxCommentLen then String.mk (s.data.take maxCommentLen) else s

/-- Source `Rule.comment(prefixFragment)`: one fragment per user comment line,
each `fmt.Sprintf("%s; %s", prefixFragment, line)`, joined by spaces;
`nil` when the result is empty (in particular when `Comment` is empty). -/
def Rule.comment (r : Rule) (pfxFragment : String) : Option String :=
  let fragments := r.Comment.map (fun c => pfxFragment ++ "; " ++ truncateComment (escapeComment c))
  let cmt := stringsJoin " " fragments
  if cmt = "" then none else some cmt

/-- Source `Rule.renderInner(fragments, prefixFragment, features)`. -/
def Rule.renderInner (r : Rule) (fragments : List String) (pfxFragment : String) : String :=
  let fragments := if pfxFragment ≠ "" then fragments ++ [pfxFragment] else fragments
  let matchFragment := r.Match.Render
  let fragments := if matchFragment ≠ "" then fragments ++ [matchFragment] else fragments
  let fragments :=
    match r.Action with
    | some a =>
      let actionFragment := a.ToFragment
      if actionFragment ≠ "" then fragments ++ [actionFragment] else fragments
    | none => fragments
  let inner := stringsJoin " " fragments
  if inner.data.length = 0 then "counter" else inner

/-- Source `Rule.Render(chain, prefixFragment, features)`: the `knftables.Rule`
committed to the dataplane. -/
def Rule.Render (r : Rule) (chain : String) (pfxFragment : String) : NftRule :=
  { Chain := chain, Rule := r.renderInner [] "", Comment := r.comment pfxFragment }

/-- Source `Rule.RenderAppend(table, chainName, prefixFragment, features)` (used
with `table = ""` and `prefixFragment = "HASH"` by the hash engine). -/
def Rule.RenderAppend (r : Rule) (table chainName pfxFragment : String) : String :=
  r.renderInner ["add rule", table, chainName] pfxFragment

def HashLength : Nat := 16

/-- The per-rule step of `Chain.RuleHashes`: chain the previous digest
into the next one and emit the 16-character base64 fingerprint. -/
def ruleHashesGo (chainName : String) : List Nat → List Rule → List String
  | _, [] => []
  | prevHash, r :: rest =>
    let ruleForHashing := r.RenderAppend "" chainName "HASH"
    let hash := sha224 (prevHash ++ strBytes ruleForHashing)
    String.mk ((b64url hash).take HashLength) :: ruleHashesGo chainName hash rest

/-- Source `Chain.RuleHashes(features)`: seed with `SHA224(chain name)`, then
chain each rule's rendered text into the running digest. -/
def Chain.RuleHashes (c : Chain) : List String :=
  ruleHashesGo c.Name (sha224 (strBytes c.Name)) c.Rules

/-- Source `Chain.IPSetNames()`. -/
def Chain.IPSetNames (c : Chain) : List String :=
  c.Rules.foldl (fun acc r => acc ++ r.Match.ipSetNames) []

/-- Source `CalculateRuleHashes(chainName, rules, features)`. -/
def CalculateRuleHashes (chainName : String) (rules : List Rule) : List String :=
  Chain.RuleHashes { Name := chainName, Rules := rules }

/-! ## Association-list maps and sets (Go `map` / `set.Set`) -/

/-- Go map lookup with presence (`v, ok := m[k]`). -/
def mapLookup (m : List (String × α)) (k : String) : Option α :=
  (m.find? (fun p => p.1 == k)).map (fun p => p.2)

/-- Go map read with the zero value as default (`m[k]`). -/
def mapGetD (m : List (String × α)) (k : String) (d : α) : α :=
  (mapLookup m k).getD d

/-- Go map write (`m[k] = v`). -/
def mapSet : List (String × α) → String → α → List (String × α)
  | [], k, v => [(k, v)]
  | (k', v') :: rest, k, v =>
    if k' == k then (k', v) :: rest else (k', v') :: mapSet rest k v

/-- Go `delete(m, k)`. -/
def mapDel (m : List (String × α)) (k : String) : List (String × α) :=
  m.filter (fun p => p.1 != k)

/-- Go `set.Set.Add` (idempotent). -/
def setAdd (s : List String) (x : String) : List String :=
  if s.contains x then s else s ++ [x]

/-- Source `numEmptyStrings`. -/
def numEmptyStrings (strs : List String) : Nat :=
  (strs.filter (fun s => s == "")).length

/-! ## The Table state (`felix/nftables/table.go`)

Only the fields the reconciler logic reads or writes are modelled; log
contexts, metrics handles and the injected command/time shims are not
state.  Durations and times are `Int` nanoseconds.  The Go field
`hashCommentPrefix` is modelled as `hashCommentMark` and the compiled
regexp fields are modelled by the data they are built from:
`ourChainsRegexp` (pattern `^(p1|p2|...)`) by the list of historic chain
name stems `ourChainsPatterns`. -/

structure Table where
  Name : String
  chainToInsertedRules : List (String × List Rule)
  chainToAppendedRules : List (String × List Rule)
  dirtyInsertAppend : List String
  chainNameToChain : List (String × Chain)
  chainRefCounts : List (String × Int)
  dirtyChains : List String
  inSyncWithDataPlane : Bool
  chainToDataplaneHashes : List (String × List String)
  chainToFullRules : List (String × List NftRule)
  hashCommentMark : String
  ourChainsPatterns : List String
  insertMode : String
  lastReadTime : Int
  lastWriteTime : Int
  initialPostWriteInterval : Int
  postWriteInterval : Int
  refreshInterval : Int
  peakNftablesReadTime : Int
  peakNftablesWriteTime : Int
  reason : String
deriving DecidableEq, Repr

/-- Source `minPostWriteInterval` (50 ms), in nanoseconds. -/
def minPostWriteInterval : Int := 50000000

/-- One hour in nanoseconds. -/
def oneHour : Int := 3600000000000

/-- Source `tableToChains`: the kernel base chains of each table. -/
def tableToChains (name : String) : List String :=
  if name = "cali-filter" then ["INPUT", "FORWARD", "OUTPUT"]
  else if name = "cali-nat" then ["PREROUTING", "INPUT", "OUTPUT", "POSTROUTING"]
  else if name = "cali-mangle" then ["PREROUTING", "INPUT", "FORWARD", "OUTPUT", "POSTROUTING"]
  else if name = "cali-raw" then ["PREROUTING", "OUTPUT"]
  else []

/-- Test for the `ourChainsRegexp` pattern `^(p1|p2|...)`: the chain name
starts with one of the historic stems. -/
def Table.ourChainsMatch (t : Table) (chainName : String) : Bool :=
  t.ourChainsPatterns.any (fun p => goHasPfx chainName p)

/-- Source `NewTable`: pre-populates inserts/appends/refcounts for the
kernel chains, normalises the insert mode and the post-write interval.
(An unknown insert mode panics in Go; the claims only exercise the two
valid modes, for which the `else` branch below is not taken.) -/
def NewTable (name : String) (hashMark : String) (historicChainStems : List String)
    (insertModeOption : String) (postWriteIntervalOption : Int) (refreshIntervalOption : Int)
    (now : Int) : Table :=
  let kernelChains := tableToChains name
  { Name := name
    chainToInsertedRules := kernelChains.map (fun c => (c, []))
    chainToAppendedRules := kernelChains.map (fun c => (c, []))
    dirtyInsertAppend := kernelChains
    chainNameToChain := []
    chainRefCounts := kernelChains.map (fun c => (c, 1))
    dirtyChains := []
    inSyncWithDataPlane := false
    chainToDataplaneHashes := []
    chainToFullRules := []
    hashCommentMark := hashMark
    ourChainsPatterns := historicChainStems
    insertMode := if insertModeOption = "append" then "append" else "insert"
    lastReadTime := 0
    lastWriteTime := now
    initialPostWriteInterval :=
      if postWriteIntervalOption ≤ minPostWriteInterval then minPostWriteInterval
      else postWriteIntervalOption
    postWriteInterval :=
      if postWriteIntervalOption ≤ minPostWriteInterval then minPostWriteInterval
      else postWriteIntervalOption
    refreshInterval := refreshIntervalOption
    peakNftablesReadTime := 0
    peakNftablesWriteTime := 0
    reason := "" }

/-- Source `Table.chainIsReferenced`. -/
def Table.chainIsReferenced (t : Table) (name : String) : Bool :=
  mapGetD t.chainRefCounts name (0 : Int) > 0

/-- Source `Table.InvalidateDataplaneCache(reason)`: a no-op when the
cache is already invalid, otherwise clears the in-sync flag and records
the reason. -/
def Table.InvalidateDataplaneCache (t : Table) (reason : String) : Table :=
  if !t.inSyncWithDataPlane then t
  else { t with inSyncWithDataPlane := false, reason := reason }

/-- Source `Table.increfChain`, fuel-indexed because the Go recursion
through `maybeIncrefReferredChains` is not structural.  The fuel only
bounds the recursion depth; every concrete run below stays well within
it.  The `maybeIncrefReferredChains` call in the 0-to-1 branch is
inlined: its referenced-ness guard always holds there (the count is 1). -/
def Table.increfChain : Nat → Table → String → Table
  | 0, t, _ => t
  | fuel + 1, t, chainName =>
    let t := { t with
      chainRefCounts := mapSet t.chainRefCounts chainName
        (mapGetD t.chainRefCounts chainName (0 : Int) + 1) }
    if mapGetD t.chainRefCounts chainName (0 : Int) = 1 then
      let t := { t with dirtyChains := setAdd t.dirtyChains chainName }
      match mapLookup t.chainNameToChain chainName with
      | some chain =>
        chain.Rules.foldl (fun (acc : Table) (r : Rule) =>
          match r.Action with
          | some a =>
            match a.referencedChain with
            | some target => Table.increfChain fuel acc target
            | none => acc
          | none => acc) t
      | none => t
    else t

/-- Source `Table.decrefChain`, fuel-indexed like `increfChain`.  On a
count of exactly 1 the children are decreffed recursively (the inlined
`maybeDecrefReferredChains` guard holds: the count is still 1 at that
point) and the entry is deleted; otherwise the stored count is just
decremented — including from an absent entry, which stores `-1`. -/
def Table.decrefChain : Nat → Table → String → Table
  | 0, t, _ => t
  | fuel + 1, t, chainName =>
    if mapGetD t.chainRefCounts chainName (0 : Int) = 1 then
      let t :=
        match mapLookup t.chainNameToChain chainName with
        | some chain =>
          chain.Rules.foldl (fun (acc : Table) (r : Rule) =>
            match r.Action with
            | some a =>
              match a.referencedChain with
              | some target => Table.decrefChain fuel acc target
              | none => acc
            | none => acc) t
        | none => t
      { t with
        chainRefCounts := mapDel t.chainRefCounts chainName,
        dirtyChains := setAdd t.dirtyChains chainName }
    else
      { t with
        chainRefCounts := mapSet t.chainRefCounts chainName
          (mapGetD t.chainRefCounts chainName (0 : Int) - 1) }

/-- Source `Table.maybeIncrefReferredChains`. -/
def Table.maybeIncrefReferredChains (fuel : Nat) (t : Table) (chainName : String)
    (rules : List Rule) : Table :=
  if !t.chainIsReferenced chainName then t
  else
    rules.foldl (fun (acc : Table) (r : Rule) =>
      match r.Action with
      | some a =>
        match a.referencedChain with
        | some target => Table.increfChain fuel acc target
        | none => acc
      | none => acc) t

/-- Source `Table.maybeDecrefReferredChains`. -/
def Table.maybeDecrefReferredChains (fuel : Nat) (t : Table) (chainName : String)
    (rules : List Rule) : Table :=
  if !t.chainIsReferenced chainName then t
  else
    rules.foldl (fun (acc : Table) (r : Rule) =>
      match r.Action with
      | some a =>
        match a.referencedChain with
        | some target => Table.decrefChain fuel acc target
        | none => acc
      | none => acc) t

/-- Source `Table.InsertOrAppendRules(chainName, rules)`. -/
def Table.InsertOrAppendRules (fuel : Nat) (t : Table) (chainName : String)
    (rules : List Rule) : Table :=
  let oldRules := mapGetD t.chainToInsertedRules chainName []
  let t := { t with
    chainToInsertedRules := mapSet t.chainToInsertedRules chainName rules,
    dirtyInsertAppend := setAdd t.dirtyInsertAppend chainName }
  let t := t.maybeIncrefReferredChains fuel chainName rules
  let t := t.maybeDecrefReferredChains fuel chainName oldRules
  t.InvalidateDataplaneCache "insertion"

/-- Source `Table.AppendRules(chainName, rules)`. -/
def Table.AppendRules (fuel : Nat) (t : Table) (chainName : String)
    (rules : List Rule) : Table :=
  let oldRules := mapGetD t.chainToAppendedRules chainName []
  let t := { t with
    chainToAppendedRules := mapSet t.chainToAppendedRules chainName rules,
    dirtyInsertAppend := setAdd t.dirtyInsertAppend chainName }
  let t := t.maybeIncrefReferredChains fuel chainName rules
  let t := t.maybeDecrefReferredChains fuel chainName oldRules
  t.InvalidateDataplaneCache "insertion"

/-- Source `Table.UpdateChain(chain)`. -/
def Table.UpdateChain (fuel : Nat) (t : Table) (chain : Chain) : Table :=
  let t := t.maybeIncrefReferredChains fuel chain.Name chain.Rules
  let t :=
    match mapLookup t.chainNameToChain chain.Name with
    | some oldChain => t.maybeDecrefReferredChains fuel chain.Name oldChain.Rules
    | none => t
  let t := { t with chainNameToChain := mapSet t.chainNameToChain chain.Name chain }
  if t.chainIsReferenced chain.Name then
    let t := { t with dirtyChains := setAdd t.dirtyChains chain.Name }
    t.InvalidateDataplaneCache "chain update"
  else t

/-- Source `Table.RemoveChainByName(name)`. -/
def Table.RemoveChainByName (fuel : Nat) (t : Table) (name : String) : Table :=
  match mapLookup t.chainNameToChain name with
  | none => t
  | some oldChain =>
    let t := t.maybeDecrefReferredChains fuel name oldChain.Rules
    let t := { t with chainNameToChain := mapDel t.chainNameToChain name }
    if t.chainIsReferenced name then
      let t := { t with dirtyChains := setAdd t.dirtyChains name }
      t.InvalidateDataplaneCache "chain removal"
    else t

/-- Source `Table.desiredStateOfChain(chainName)`: present only when the
chain is referenced and in the cache. -/
def Table.desiredStateOfChain (t : Table) (chainName : String) : Option Chain :=
  if !t.chainIsReferenced chainName then none
  else mapLookup t.chainNameToChain chainName

/-- Source `Table.commentFrag(hash)`. -/
def Table.commentFrag (t : Table) (hash : String) : String :=
  t.hashCommentMark ++ hash

/-- Source `Table.expectedHashesForInsertAppendChain`: builds the `all`
slice by writing the inserted and appended hashes into a zero-filled
slice of the combined length, exactly as the Go index loops do. -/
def writeFrom (l : List String) (off : Nat) : List String → List String
  | [] => l
  | v :: vs => writeFrom (l.set off v) (off + 1) vs

def Table.expectedHashesForInsertAppendChain (t : Table) (chainName : String)
    (numNonCalicoRules : Nat) : List String × List String × List String :=
  let insertedRules := mapGetD t.chainToInsertedRules chainName []
  let appendedRules := mapGetD t.chainToAppendedRules chainName []
  let base := List.replicate (insertedRules.length + appendedRules.length + numNonCalicoRules) ""
  let ourInsertedHashes :=
    if insertedRules.length > 0 then CalculateRuleHashes chainName insertedRules else []
  let ourAppendedHashes :=
    if appendedRules.length > 0 then
      CalculateRuleHashes (chainName ++ "*appends*") appendedRules
    else []
  let off := if t.insertMode = "append" then numNonCalicoRules else 0
  let allHashes := writeFrom base off ourInsertedHashes
  let allHashes := writeFrom allHashes (insertedRules.length + numNonCalicoRules) ourAppendedHashes
  (allHashes, ourInsertedHashes, ourAppendedHashes)

/-- Fingerprint extraction inlined in
`Table.attemptToGetHashesAndRulesFromDataplane`:
`strings.TrimPrefix(strings.Split(*rule.Comment, ":")[0], t.hashCommentPrefix)`,
with the empty string for a rule without a comment. -/
def extractHash (hashMark : String) (comment : Option String) : String :=
  match comment with
  | none => ""
  | some c => goTrimPfx (beforeFirstColon c) hashMark

/-! ## Transaction operations and the dataplane (`knftables` driver)

Modelled from the spec: the injected transaction driver accumulates
add/insert/replace/delete/flush operations and runs them atomically; the
kernel state is the single table: a map from chain name to its ordered
rule list, plus a fresh-handle counter.  `list`/`list_rules` reads are
deterministic.  (In this sequential model the driver's `run` always
succeeds, so the success path of the reconciler is exercised directly;
Go panics remain `Option.none`.) -/

inductive TxOp where
  | addTable
  | addChain (name : String)
  | flushChain (name : String)
  | deleteChain (name : String)
  | addSet (name : String)
  | addRule (r : NftRule)
  | insertRule (r : NftRule)
  | replaceRule (r : NftRule)
  | deleteRule (r : NftRule)
deriving DecidableEq, Repr

structure Dataplane where
  chains : List (String × List NftRule)
  nextHandle : Int
deriving DecidableEq, Repr

/-- Apply one transaction operation to the kernel state.  `insert`
prepends (nftables `insert rule` without a position), `add` appends,
`replace`/`delete` act by handle. -/
def runOp (dp : Dataplane) (op : TxOp) : Dataplane :=
  match op with
  | .addTable => dp
  | .addSet _ => dp
  | .addChain n =>
    if (mapLookup dp.chains n).isSome then dp else { dp with chains := dp.chains ++ [(n, [])] }
  | .flushChain n =>
    if (mapLookup dp.chains n).isSome then { dp with chains := mapSet dp.chains n [] } else dp
  | .deleteChain n => { dp with chains := mapDel dp.chains n }
  | .addRule r =>
    let rules := mapGetD dp.chains r.Chain []
    { dp with
      chains := mapSet dp.chains r.Chain (rules ++ [{ r with Handle := some dp.nextHandle }]),
      nextHandle := dp.nextHandle + 1 }
  | .insertRule r =>
    let rules := mapGetD dp.chains r.Chain []
    { dp with
      chains := mapSet dp.chains r.Chain ({ r with Handle := some dp.nextHandle } :: rules),
      nextHandle := dp.nextHandle + 1 }
  | .replaceRule r =>
    let rules := mapGetD dp.chains r.Chain []
    { dp with
      chains := mapSet dp.chains r.Chain
        (rules.map (fun old => if old.Handle == r.Handle then r else old)) }
  | .deleteRule r =>
    let rules := mapGetD dp.chains r.Chain []
    { dp with
      chains := mapSet dp.chains r.Chain (rules.filter (fun old => old.Handle != r.Handle)) }

/-- Run a whole transaction. -/
def runTx (dp : Dataplane) (ops : List TxOp) : Dataplane := ops.foldl runOp dp

/-- The per-chain fingerprint lists read back from the kernel: one entry
per chain, one fingerprint (or empty string) per rule, extracted from
the rule comments (source `attemptToGetHashesAndRulesFromDataplane`). -/
def dataplaneReadHashes (hashMark : String) (dp : Dataplane) : List (String × List String) :=
  dp.chains.map (fun c => (c.1, c.2.map (fun r => extractHash hashMark r.Comment)))

/-- Source `Table.getHashesAndRulesFromDataplane` /
`attemptToGetHashesAndRulesFromDataplane` on the success path: returns
the hash map and the full-rule map for every chain, and updates the
peak-read-time estimate (the deferred block decays it by 1 percent and
raises it to the observed read duration `readDur`). -/
def Table.getHashesAndRulesFromDataplane (t : Table) (dp : Dataplane) (readDur : Int) :
    Table × List (String × List String) × List (String × List NftRule) :=
  let decayed := t.peakNftablesReadTime * 99 / 100
  let t := { t with peakNftablesReadTime := if readDur > decayed then readDur else decayed }
  (t, dataplaneReadHashes t.hashCommentMark dp, dp.chains)

/-- First reconciliation loop of `loadDataplaneState`: check each chain
we think we have programmed against what was read back. -/
def loadCheckStep (dpHashes : List (String × List String)) (t : Table)
    (entry : String × List String) : Table :=
  let chainName := entry.1
  let expectedHashes := entry.2
  if t.dirtyChains.contains chainName || t.dirtyInsertAppend.contains chainName then t
  else
    let dpH := mapGetD dpHashes chainName []
    if !(t.ourChainsMatch chainName) then
      let insertedRules := mapGetD t.chainToInsertedRules chainName []
      if insertedRules.length = 0 then
        if dpH.any (fun h => h ≠ "") then
          { t with dirtyInsertAppend := setAdd t.dirtyInsertAppend chainName }
        else t
      else
        let expected := (t.expectedHashesForInsertAppendChain chainName (numEmptyStrings dpH)).1
        if dpH ≠ expected then
          { t with dirtyInsertAppend := setAdd t.dirtyInsertAppend chainName }
        else t
    else
      if dpH ≠ expectedHashes then { t with dirtyChains := setAdd t.dirtyChains chainName }
      else t

/-- Second reconciliation loop of `loadDataplaneState`: scan for chains
present in the kernel that we do not expect. -/
def loadScanStep (t : Table) (entry : String × List String) : Table :=
  let chainName := entry.1
  if t.dirtyChains.contains chainName || t.dirtyInsertAppend.contains chainName then t
  else if (mapLookup t.chainToDataplaneHashes chainName).isSome then t
  else if !(t.ourChainsMatch chainName) then
    if entry.2.any (fun h => h ≠ "") then
      { t with dirtyInsertAppend := setAdd t.dirtyInsertAppend chainName }
    else t
  else { t with dirtyChains := setAdd t.dirtyChains chainName }

/-- Source `Table.loadDataplaneState`: read the kernel, mark
out-of-sync chains dirty, and install the observed state. -/
def Table.loadDataplaneState (t : Table) (dp : Dataplane) (now readDur : Int) : Table :=
  let t := { t with lastReadTime := now }
  let (t, dpHashes, dpRules) := t.getHashesAndRulesFromDataplane dp readDur
  let t := t.chainToDataplaneHashes.foldl (loadCheckStep dpHashes) t
  let t := dpHashes.foldl loadScanStep t
  { t with
    chainToDataplaneHashes := dpHashes,
    chainToFullRules := dpRules,
    inSyncWithDataPlane := true }

/-- Phase 0 of `applyUpdates`: forward references for dirty chains
(flush chains about to be deleted, add chains not yet in the kernel). -/
def phase0Step (t : Table) (ops : List TxOp) (chainName : String) : List TxOp :=
  match t.desiredStateOfChain chainName with
  | none => ops ++ [TxOp.flushChain chainName]
  | some _ =>
    if (mapLookup t.chainToDataplaneHashes chainName).isNone then
      ops ++ [TxOp.addChain chainName]
    else ops

/-- One index of the phase-1 scan loop of `applyUpdates`
(`for i := 0; i < len(previousHashes) || i < len(currentHashes); i++`).
Each Go slice index is an `Option` bind; `none` is Go's index-out-of-range
panic.  Note that the replace and delete branches both read
`currentHashes[i]`, `chain.Rules[i]` and `chainToFullRules[chainName][i]`. -/
def phase1RulesStep (t : Table) (chainName : String) (chain : Chain)
    (previousHashes currentHashes : List String) (ops : List TxOp) (i : Nat) :
    Option (List TxOp) :=
  if i < previousHashes.length ∧ i < currentHashes.length then
    if previousHashes.getD i "" = currentHashes.getD i "" then some ops
    else do
      let curH ← currentHashes.get? i
      let rule ← chain.Rules.get? i
      let fullRule ← (mapGetD t.chainToFullRules chainName []).get? i
      some (ops ++ [TxOp.replaceRule
        { rule.Render chainName (t.commentFrag curH) with Handle := fullRule.Handle }])
  else if i < previousHashes.length then do
    let curH ← currentHashes.get? i
    let rule ← chain.Rules.get? i
    let fullRule ← (mapGetD t.chainToFullRules chainName []).get? i
    some (ops ++ [TxOp.deleteRule
      { rule.Render chainName (t.commentFrag curH) with Handle := fullRule.Handle }])
  else do
    let curH ← currentHashes.get? i
    let rule ← chain.Rules.get? i
    some (ops ++ [TxOp.addRule (rule.Render chainName (t.commentFrag curH))])

/-- Phase 1 of `applyUpdates` for one dirty chain with desired state:
declare its IP sets and scan previous vs current hashes. -/
def phase1Chain (t : Table) (acc : List TxOp × List (String × Option (List String)))
    (chainName : String) : Option (List TxOp × List (String × Option (List String))) :=
  match t.desiredStateOfChain chainName with
  | none => some acc
  | some chain =>
    let previousHashes := mapGetD t.chainToDataplaneHashes chainName []
    let currentHashes := chain.RuleHashes
    let setOps := chain.IPSetNames.map (fun n => TxOp.addSet n)
    match (List.range (max previousHashes.length currentHashes.length)).foldlM
        (phase1RulesStep t chainName chain previousHashes currentHashes) [] with
    | none => none
    | some ruleOps =>
      some (acc.1 ++ setOps ++ ruleOps, mapSet acc.2 chainName (some currentHashes))

/-- Phase 2 of `applyUpdates` for one dirty insert/append chain: if the
expected whole-chain hashes differ from the observed ones, flush the
chain and re-insert/re-append our rules. -/
def phase2Step (t : Table)
    (acc : List TxOp × List (String × Option (List String)) × List (String × List NftRule))
    (chainName : String) :
    List TxOp × List (String × Option (List String)) × List (String × List NftRule) :=
  let (ops, newHashes, staged) := acc
  let previousHashes := mapGetD t.chainToDataplaneHashes chainName []
  let newRules := mapGetD staged chainName []
  let expected := t.expectedHashesForInsertAppendChain chainName (numEmptyStrings previousHashes)
  let newChainHashes := expected.1
  let newInsertedRuleHashes := expected.2.1
  let newAppendedRuleHashes := expected.2.2
  if newChainHashes = previousHashes then acc
  else
    let ops := ops ++ [TxOp.flushChain chainName]
    -- `copyOfNewRules` drops nil entries; rules read back from the
    -- dataplane are never nil in this model, so it is the identity.
    let insRules := mapGetD t.chainToInsertedRules chainName []
    let ops := ops ++
      (if insRules.length > 0 then
        (if t.insertMode = "insert" then
          ((List.range insRules.length).reverse).map (fun i =>
            TxOp.insertRule ((insRules.getD i default).Render chainName
              (t.commentFrag (newInsertedRuleHashes.getD i ""))))
        else
          (List.range insRules.length).map (fun i =>
            TxOp.addRule ((insRules.getD i default).Render chainName
              (t.commentFrag (newInsertedRuleHashes.getD i "")))))
      else [])
    let appRules := mapGetD t.chainToAppendedRules chainName []
    let ops := ops ++
      (if appRules.length > 0 then
        (List.range appRules.length).map (fun i =>
          TxOp.addRule ((appRules.getD i default).Render chainName
            (t.commentFrag (newAppendedRuleHashes.getD i ""))))
      else [])
    (ops, mapSet newHashes chainName (some newChainHashes), mapSet staged chainName newRules)

/-- Phase 3 of `applyUpdates`: delete chains whose desired state is
absent and record a nil hash entry for them. -/
def phase3Step (t : Table) (acc : List TxOp × List (String × Option (List String)))
    (chainName : String) : List TxOp × List (String × Option (List String)) :=
  match t.desiredStateOfChain chainName with
  | some _ => acc
  | none => (acc.1 ++ [TxOp.deleteChain chainName], mapSet acc.2 chainName none)

/-- Source `Table.applyUpdates` up to, and including, the post-commit
cache updates, but without the trailing `loadDataplaneState` re-read.
Returns `none` on a Go panic (phase-1 index out of range).  The
transaction always starts with an `add table` line, so the rendered
transaction is never empty and the commit always runs. -/
def Table.applyUpdatesCore (t : Table) (dp : Dataplane) (now : Int) :
    Option (Table × Dataplane) :=
  let ops0 := TxOp.addTable :: (tableToChains t.Name).map (fun c => TxOp.addChain c)
  let ops0 := t.dirtyChains.foldl (phase0Step t) ops0
  match t.dirtyChains.foldlM (phase1Chain t) ([], []) with
  | none => none
  | some (ops1, newHashes1) =>
    let acc2 := t.dirtyInsertAppend.foldl (phase2Step t) (ops0 ++ ops1, newHashes1, t.chainToFullRules)
    let (ops2, newHashes2, staged2) := acc2
    let acc3 := t.dirtyChains.foldl (phase3Step t) (ops2, newHashes2)
    let (opsAll, newHashesAll) := acc3
    let dp2 := if opsAll.isEmpty then dp else runTx dp opsAll
    let t2 :=
      if opsAll.isEmpty then t
      else { t with lastWriteTime := now, postWriteInterval := t.initialPostWriteInterval }
    let t2 :=
      if t2.postWriteInterval ≠ 0 then
        (let dynamicMin := (t2.peakNftablesReadTime + t2.peakNftablesWriteTime) * 2
         if t2.postWriteInterval < dynamicMin then { t2 with postWriteInterval := dynamicMin }
         else t2)
      else t2
    let merged := newHashesAll.foldl (fun m kv =>
      match kv.2 with
      | none => mapDel m kv.1
      | some v => mapSet m kv.1 v) t.chainToDataplaneHashes
    some ({ t2 with
            dirtyChains := [],
            dirtyInsertAppend := [],
            chainToDataplaneHashes := merged,
            chainToFullRules := staged2 }, dp2)

/-- Source `Table.applyUpdates`: the transaction construction and commit,
followed by the unconditional trailing `loadDataplaneState` re-read
("Hack to load data plane state after every write"). -/
def Table.applyUpdates (t : Table) (dp : Dataplane) (now readDur : Int) :
    Option (Table × Dataplane) :=
  match t.applyUpdatesCore dp now with
  | none => none
  | some (mid, dp2) => some (mid.loadDataplaneState dp2 now readDur, dp2)

/-- Post-write invalidation loop at the top of `Apply`: while the
post-write interval has passed (and is non-zero and under an hour),
double it and invalidate the cache.  Fuel bounds the doublings; 64
suffices for any interval under an hour.  (Go guards the invalidate call
with a flag; re-invoking `InvalidateDataplaneCache` on an out-of-sync
table is a no-op, so the result is the same.) -/
def Table.postWriteCheck : Nat → Table → Int → Table
  | 0, t, _ => t
  | fuel + 1, t, now =>
    if t.postWriteInterval ≠ 0 ∧ t.postWriteInterval < oneHour ∧
        ¬ now < t.lastWriteTime + t.postWriteInterval then
      Table.postWriteCheck fuel
        (Table.InvalidateDataplaneCache { t with postWriteInterval := t.postWriteInterval * 2 }
          "post update") now
    else t

/-- Source `Table.Apply` on the success path: invalidation checks, then
a dataplane read when out of sync, then `applyUpdates`.  The transaction
driver in this sequential model always commits, so the retry loop's
first attempt decides; the loop's counting behaviour is modelled
separately by `applyRetryLoop` with an explicit outcome oracle. -/
def Table.Apply (t : Table) (dp : Dataplane) (now readDur : Int) : Option (Table × Dataplane) :=
  let lastReadToNow := now - t.lastReadTime
  let t :=
    if t.refreshInterval > 0 ∧ lastReadToNow > t.refreshInterval then
      t.InvalidateDataplaneCache "refresh timer"
    else t
  let t := Table.postWriteCheck 64 t now
  let t := if !t.inSyncWithDataPlane then t.loadDataplaneState dp now readDur else t
  t.applyUpdates dp now readDur

/-! ## The Apply retry loop (source lines `retries := 10; backoffTime := 1ms`)

The attempt outcomes are abstracted by an oracle `fails : Nat → Bool`
(`fails i = true` means the i-th `applyUpdates` call returns an error);
the loop structure, attempt counting, sleeping and panic behaviour follow
the source.  Sleep durations are in milliseconds. -/

structure RetryResult where
  calls : Nat
  sleeps : List Nat
  panicked : Bool
deriving DecidableEq, Repr

/-- The retry loop body: on failure with retries left, sleep the current
backoff, double it and loop; on failure with no retries left, gather
diagnostics and panic; on success, stop. -/
def retryGo (fails : Nat → Bool) : Nat → Nat → Nat → RetryResult
  | 0, _, attemptIdx =>
    if fails attemptIdx then { calls := attemptIdx + 1, sleeps := [], panicked := true }
    else { calls := attemptIdx + 1, sleeps := [], panicked := false }
  | retries + 1, backoffTime, attemptIdx =>
    if fails attemptIdx then
      let res := retryGo fails retries (backoffTime * 2) (attemptIdx + 1)
      { res with sleeps := backoffTime :: res.sleeps }
    else { calls := attemptIdx + 1, sleeps := [], panicked := false }

/-- The retry loop as entered by `Apply`: `retries := 10`, initial
backoff 1 ms, counting every `applyUpdates` invocation. -/
def applyRetryLoop (fails : Nat → Bool) : RetryResult := retryGo fails 10 1 0

/-- Source `Table.CheckRulesPresent(chain, rules)`: compute the
fingerprints of the candidate rules, do a fresh dataplane read, and
return the rules whose fingerprint is among the chain's observed
hashes. -/
def Table.CheckRulesPresent (t : Table) (dp : Dataplane) (readDur : Int)
    (chain : String) (rules : List Rule) : Table × List Rule :=
  let hashes := CalculateRuleHashes chain rules
  let res := t.getHashesAndRulesFromDataplane dp readDur
  let t2 := res.1
  let dpHashList := mapGetD res.2.1 chain []
  let present := ((rules.zip hashes).filter (fun p => dpHashList.contains p.2)).map (fun p => p.1)
  (t2, present)

/-! ## Spec-side expressions and concrete scenarios used by the claims -/

/-- Spec-side description of the action fragment of a rule: the rendered
fragment of the action when there is one, else the empty string (the
spec treats a nil action as an empty action fragment). -/
def specActionFragment (r : Rule) : String :=
  match r.Action with
  | some a => a.ToFragment
  | none => ""

/-- A rule whose action jumps to the given chain. -/
def ruleJump (target : String) : Rule :=
  { Match := { fragment := "", ipSetNames := [] }, Action := some (.jumpAct target), Comment := [] }

/-- A rule with an opaque action fragment and no user comment. -/
def ruleBasic (frag : String) : Rule :=
  { Match := { fragment := "", ipSetNames := [] }, Action := some (.basic frag), Comment := [] }

/-- Scenario for the refcount claim: a fresh `cali-raw` table, then
three public calls: declare inserts `[jump B]` for the (unreferenced)
chain `X`, hook `PREROUTING` with `[jump X]` (making `X` referenced),
then replace `X`'s inserts with the empty list. -/
def tableC5 : Table :=
  (((NewTable "cali-raw" "cali:" ["cali"] "" 0 0 0).InsertOrAppendRules 100
    "X" [ruleJump "B"]).InsertOrAppendRules 100
    "PREROUTING" [ruleJump "X"]).InsertOrAppendRules 100 "X" []

/-- Scenario for the phase-1 delete claim: a fresh `cali-raw` table whose
`PREROUTING` inserts jump to `cali-x`, and whose desired `cali-x` chain
has one rule. -/
def tableC2 : Table :=
  ((NewTable "cali-raw" "cali:" ["cali"] "" 0 0 0).InsertOrAppendRules 100
    "PREROUTING" [ruleJump "cali-x"]).UpdateChain 100
    { Name := "cali-x", Rules := [ruleBasic "drop"] }

/-- Kernel state for the phase-1 delete claim: `cali-x` already holds
two rules (so the previous hash list is longer than the desired one). -/
def dataplaneC2 : Dataplane :=
  { chains := [("cali-x", [{ Chain := "cali-x", Rule := "a", Comment := none, Handle := some 1 },
                           { Chain := "cali-x", Rule := "b", Comment := none, Handle := some 2 }]),
               ("PREROUTING", []), ("OUTPUT", [])],
    nextHandle := 3 }

/-- Scenario for the post-Apply claim: a table named `test` (no kernel
base chains) whose `FORWARD` inserts are one comment-less rule. -/
def tableC4 : Table :=
  (NewTable "test" "cali:" ["cali"] "" 0 0 0).InsertOrAppendRules 100 "FORWARD" [ruleBasic "drop"]

/-- Kernel state for the post-Apply claim: `FORWARD` holds one foreign
rule (no comment). -/
def dataplaneC4 : Dataplane :=
  { chains := [("FORWARD", [{ Chain := "FORWARD", Rule := "foreign", Comment := none,
                              Handle := some 1 }])],
    nextHandle := 2 }

/-- The state `Apply` hands to `applyUpdates` in the post-Apply
scenario: `tableC4` after the dataplane read. -/
def tableC4Loaded : Table := tableC4.loadDataplaneState dataplaneC4 0 0

/-- A table used for witnesses: fresh, insert mode `insert`, with a
previously stored reason and an out-of-sync cache. -/
def tableC10 : Table :=
  { NewTable "test" "cali:" ["cali"] "" 0 0 0 with reason := "old" }

/-! ## Claim theorems -/

/-- C1: the claim says every rule rendered through `Render` carries
`hash_prefix` followed by its fingerprint in its comment, with user
comment lines appended after `; `.  The code disagrees: a rule with no
user comment lines gets no comment at all (`Rule.comment` returns nil),
and with several lines the whole prefix fragment is repeated before each
line.  This theorem evaluates both divergences. -/
theorem c1_comment_drops_fingerprint :
    (({ Match := { fragment := "", ipSetNames := [] }, Action := some (.basic "drop"),
        Comment := [] } : Rule).Render "cali-x" "cali:abcdefghijklmnop").Comment = none ∧
    ({ Match := { fragment := "", ipSetNames := [] }, Action := some (.basic "drop"),
       Comment := ["a", "b"] } : Rule).comment "cali:abcdefghijklmnop" =
      some "cali:abcdefghijklmnop; a cali:abcdefghijklmnop; b" := by
  constructor
  · rfl
  · rfl

/-- C3: the claim says the extraction yields the 16-character fingerprint
for a comment `hash_prefix ∥ fingerprint` and the empty string for
unrecognised comments.  The code takes the text before the first colon
and strips the configured mark from it: for prefix `cali:` and comment
`cali:abcdefghijklmnop` the pre-colon text is `cali`, which does not
carry the trailing colon, so the extraction returns `cali` — not the
fingerprint; and a foreign comment with no colon returns itself, not the
empty string.  Only comment-less rules map to the empty string. -/
theorem c3_extraction_mangles_fingerprint :
    extractHash "cali:" (some "cali:abcdefghijklmnop") = "cali" ∧
    extractHash "cali:" (some "foreign comment") = "foreign comment" ∧
    extractHash "cali:" none = "" := by
  refine ⟨?_, ?_, rfl⟩
  · rfl
  · rfl

/-- C5: the claim says every entry stored in `chainRefCounts` is strictly
positive over any sequence of public mutations from a fresh table.  The
three-call sequence of `tableC5` stores `-1` for chain `B`:
`InsertOrAppendRules("X", [jump B])` while `X` is unreferenced does not
incref `B`; when `X` later becomes referenced its insert rules are not
increffed either; so `InsertOrAppendRules("X", [])` decrefs `B` from an
absent entry, storing `-1`. -/
theorem c5_negative_refcount_stored :
    mapLookup tableC5.chainRefCounts "B" = some (-1) ∧
    tableC5.chainRefCounts = [("PREROUTING", 1), ("OUTPUT", 1), ("X", 1), ("B", -1)] := by
  refine ⟨?_, ?_⟩
  · rfl
  · rfl

/-- C7 counterexample: with every attempt failing, the retry loop invokes
`applyUpdates` 11 times (the initial attempt plus the 10 retries), so the
claim's bound of at most 10 invocations per `Apply` is false. -/
theorem c7_counterexample_eleven_calls :
    ¬ (applyRetryLoop (fun _ => true)).calls ≤ 10 := by decide

/-- C10 counterexample: the claim says that after one call to
`InvalidateDataplaneCache` the stored reason is the given one.  On a
table that is already out of sync (here with stored reason `old`), the
call is a no-op and the given reason `new` is not stored. -/
theorem c10_counterexample_reason_kept :
    (tableC10.InvalidateDataplaneCache "new").reason ≠ "new" := by decide

set_option maxRecDepth 40000

/-- C2: the claim says the phase-1 delete step deletes by the recorded
handle with no out-of-bounds access.  In the delete branch the index `i`
always satisfies `i ≥ len(currentHashes)`, yet the code evaluates
`currentHashes[i]` (and `chain.Rules[i]`), which panics.  First
conjunct: a full `Apply` on a reachable state (desired `cali-x` has one
rule, the kernel holds two) panics (`none`).  Second conjunct: the
phase-1 scan step itself fails at index 1 for a one-rule chain with a
two-entry previous hash list. -/
theorem c2_delete_branch_out_of_bounds :
    tableC2.Apply dataplaneC2 0 0 = none ∧
    phase1RulesStep (NewTable "test" "cali:" ["cali"] "" 0 0 0) "cali-x"
      { Name := "cali-x", Rules := [ruleBasic "drop"] }
      ["h1", "h2"] (CalculateRuleHashes "cali-x" [ruleBasic "drop"]) [] 1 = none := by
  refine ⟨?_, ?_⟩
  · rfl
  · rfl

/-- C4 counterexample: the claim says that after every successful
`Apply` both dirty sets are empty and `chainToDataplaneHashes` equals
the committed merge.  On `tableC4`/`dataplaneC4` the `Apply` succeeds
(first conjunct is `some`), the committed merge records the fingerprint
(second conjunct), but the trailing reload reads the comment-less rule
back as an empty fingerprint, overwrites the merge and re-marks
`FORWARD` dirty (first and third conjuncts). -/
theorem c4_counterexample_dirty_after_apply :
    (tableC4.Apply dataplaneC4 0 0).map (fun p => p.1.dirtyInsertAppend) = some ["FORWARD"] ∧
    (tableC4Loaded.applyUpdatesCore dataplaneC4 0).map (fun p => p.1.chainToDataplaneHashes) =
      some [("FORWARD", ["dSjYCa9ah1y2xfFd", ""])] ∧
    (tableC4.Apply dataplaneC4 0 0).map (fun p => p.1.chainToDataplaneHashes) =
      some [("FORWARD", [""])] := by
  refine ⟨?_, ?_, ?_⟩
  · rfl
  · rfl
  · rfl

/-- Behaviour of the retry loop body: starting at attempt `idx` with
`retries` retries left and current backoff `b`, the loop makes at most
`retries + 1` further calls (at least one), panics exactly when all of
them fail, and sleeps `b, 2b, 4b, …` between consecutive attempts. -/
theorem retryGo_spec (fails : Nat → Bool) :
    ∀ (retries b idx : Nat),
      (retryGo fails retries b idx).calls ≤ idx + retries + 1 ∧
      idx < (retryGo fails retries b idx).calls ∧
      ((retryGo fails retries b idx).panicked = true →
        (retryGo fails retries b idx).calls = idx + retries + 1) ∧
      (retryGo fails retries b idx).sleeps =
        (List.range ((retryGo fails retries b idx).calls - idx - 1)).map (fun j => b * 2 ^ j) := by
  intro retries
  induction retries with
  | zero =>
    intro b idx
    by_cases h : fails idx <;> simp [retryGo, h]
  | succ r ih =>
    intro b idx
    by_cases h : fails idx
    · have spec := ih (b * 2) (idx + 1)
      obtain ⟨hle, hlt, hpan, hsl⟩ := spec
      have hres : retryGo fails (r + 1) b idx =
          { retryGo fails r (b * 2) (idx + 1) with
            sleeps := b :: (retryGo fails r (b * 2) (idx + 1)).sleeps } := by
        simp [retryGo, h]
      rw [hres]
      refine ⟨by simp <;> omega, by simp <;> omega, by simp; intro hp; have := hpan hp; omega, ?_⟩
      simp only []
      rw [hsl]
      have hk : ∃ k, (retryGo fails r (b * 2) (idx + 1)).calls - idx - 1 = k + 1 := by
        refine ⟨(retryGo fails r (b * 2) (idx + 1)).calls - idx - 2, ?_⟩
        omega
      obtain ⟨k, hkk⟩ := hk
      have hk2 : (retryGo fails r (b * 2) (idx + 1)).calls - (idx + 1) - 1 = k := by omega
      rw [hkk, hk2, List.range_succ_eq_map]
      simp [List.map_map, Function.comp]
      intro a _
      ring
    · simp [retryGo, h]

/-- C7 amended: the retry loop makes at most 11 `applyUpdates` calls
(one initial attempt plus up to 10 retries), sleeps between consecutive
attempts with a backoff starting at 1 ms and doubling after each
failure, and panics (after gathering diagnostics) exactly when all 11
attempts fail. -/
theorem c7_retry_loop_eleven_attempts (fails : Nat → Bool) :
    (applyRetryLoop fails).calls ≤ 11 ∧
    ((applyRetryLoop fails).panicked = true → (applyRetryLoop fails).calls = 11) ∧
    (applyRetryLoop fails).sleeps =
      (List.range ((applyRetryLoop fails).calls - 1)).map (fun j => 2 ^ j) := by
  have spec := retryGo_spec fails 10 1 0
  obtain ⟨hle, _, hpan, hsl⟩ := spec
  refine ⟨by simpa using hle, by simpa using hpan, ?_⟩
  simpa using hsl

/-- C7 witness: the amended bound applied to the all-failures oracle:
the loop panics and the call count is exactly 11. -/
theorem c7_retry_loop_eleven_attempts_witness :
    (applyRetryLoop (fun _ => true)).calls = 11 :=
  (c7_retry_loop_eleven_attempts (fun _ => true)).2.1 (by decide)

/-- The hash engine emits exactly one fingerprint per rule. -/
theorem ruleHashesGo_length (chainName : String) (rules : List Rule) :
    ∀ seed, (ruleHashesGo chainName seed rules).length = rules.length := by
  induction rules with
  | nil => intro seed; rfl
  | cons r rest ih => intro seed; simp [ruleHashesGo, ih]

theorem CalculateRuleHashes_length (c : String) (rs : List Rule) :
    (CalculateRuleHashes c rs).length = rs.length := by
  simp [CalculateRuleHashes, Chain.RuleHashes, ruleHashesGo_length]

/-- Writing into a slice preserves its length. -/
theorem writeFrom_length (vs : List String) : ∀ (l : List String) (off : Nat),
    (writeFrom l off vs).length = l.length := by
  induction vs with
  | nil => intro l off; rfl
  | cons v vs ih => intro l off; simp [writeFrom, ih]

/-- In-bounds slice writing is splicing. -/
theorem writeFrom_eq (vs : List String) : ∀ (l : List String) (off : Nat),
    off + vs.length ≤ l.length →
    writeFrom l off vs = l.take off ++ vs ++ l.drop (off + vs.length) := by
  induction vs with
  | nil =>
    intro l off _
    simp [writeFrom]
  | cons v vs ih =>
    intro l off h
    have hlt : off < l.length := by simp at h; omega
    rw [writeFrom, ih (l.set off v) (off + 1) (by simp; simp at h; omega)]
    rw [List.set_eq_take_cons_drop v hlt]
    have hlen : (l.take off).length = off := by
      rw [List.length_take]; omega
    have htake : (l.take off ++ v :: l.drop (off + 1)).take (off + 1) =
        l.take off ++ [v] := by
      rw [List.take_append_eq_append_take]
      rw [List.take_of_length_le (by omega), hlen]
      congr 1
      have : off + 1 - off = 1 := by omega
      rw [this]
      rfl
    have hdrop : (l.take off ++ v :: l.drop (off + 1)).drop (off + 1 + vs.length) =
        l.drop (off + 1 + vs.length) := by
      rw [List.drop_append_eq_append_drop]
      rw [List.drop_eq_nil_of_le (by omega), hlen]
      have h5 : off + 1 + vs.length - off = vs.length + 1 := by omega
      rw [h5, List.nil_append, List.drop_succ_cons, List.drop_drop]
    rw [htake, hdrop]
    simp
    congr 1
    omega

/-- Layout of the `all` slice in insert mode: inserted hashes first,
then the foreign slots, then appended hashes. -/
theorem writeFrom_layout_insert (n : Nat) (insH appH : List String) :
    writeFrom (writeFrom (List.replicate (insH.length + appH.length + n) "") 0 insH)
        (insH.length + n) appH = insH ++ List.replicate n "" ++ appH := by
  have h1 : writeFrom (List.replicate (insH.length + appH.length + n) "") 0 insH =
      insH ++ List.replicate (appH.length + n) "" := by
    rw [writeFrom_eq insH _ 0 (by simp <;> omega)]
    simp [List.drop_replicate]
    congr 1
    omega
  rw [h1, writeFrom_eq appH _ (insH.length + n) (by simp <;> omega)]
  have htake : (insH ++ List.replicate (appH.length + n) "").take (insH.length + n) =
      insH ++ List.replicate n "" := by
    rw [List.take_append_eq_append_take, List.take_of_length_le (by omega)]
    congr 1
    rw [List.take_replicate]
    congr 1
    omega
  have hdrop : (insH ++ List.replicate (appH.length + n) "").drop
      (insH.length + n + appH.length) = [] := by
    rw [List.drop_append_eq_append_drop, List.drop_eq_nil_of_le (by omega)]
    rw [List.drop_replicate]
    simp
    omega
  rw [htake, hdrop]
  simp

/-- Layout of the `all` slice in append mode: the foreign slots first,
then inserted hashes, then appended hashes. -/
theorem writeFrom_layout_append (n : Nat) (insH appH : List String) :
    writeFrom (writeFrom (List.replicate (insH.length + appH.length + n) "") n insH)
        (insH.length + n) appH = List.replicate n "" ++ insH ++ appH := by
  have h1 : writeFrom (List.replicate (insH.length + appH.length + n) "") n insH =
      List.replicate n "" ++ insH ++ List.replicate appH.length "" := by
    rw [writeFrom_eq insH _ n (by simp <;> omega)]
    rw [List.take_replicate, List.drop_replicate]
    have h2 : min n (insH.length + appH.length + n) = n := by omega
    have h3 : insH.length + appH.length + n - (n + insH.length) = appH.length := by omega
    rw [h2, h3]
  rw [h1, writeFrom_eq appH _ (insH.length + n) (by simp <;> omega)]
  have htake : (List.replicate n "" ++ insH ++ List.replicate appH.length "").take
      (insH.length + n) = List.replicate n "" ++ insH := by
    rw [List.append_assoc, List.take_append_eq_append_take]
    rw [List.take_of_length_le (by simp <;> omega)]
    congr 1
    rw [List.take_append_eq_append_take, List.take_of_length_le (by simp <;> omega)]
    rw [List.take_replicate]
    simp <;> omega
  have hdrop : (List.replicate n "" ++ insH ++ List.replicate appH.length "").drop
      (insH.length + n + appH.length) = [] := by
    rw [List.append_assoc, List.drop_append_eq_append_drop]
    rw [List.drop_eq_nil_of_le (by simp <;> omega)]
    rw [List.drop_append_eq_append_drop]
    rw [List.drop_eq_nil_of_le (by simp <;> omega)]
    rw [List.drop_replicate]
    simp <;> omega
  rw [htake, hdrop]
  simp

/-- C6: `expectedHashesForInsertAppendChain` returns an `all` list of
length `len(inserted) + len(appended) + numNonCalicoRules`; in insert
mode the inserted-rule hashes occupy the leading positions, followed by
the foreign slots (empty strings), then the appended-rule hashes; in
append mode the foreign slots come first, then the inserted hashes, then
the appended hashes; and the appended hashes are seeded with
`chainName ∥ "*appends*"`. -/
theorem c6_expected_hashes_layout (t : Table) (chainName : String) (n : Nat) :
    (t.expectedHashesForInsertAppendChain chainName n).1.length =
      (mapGetD t.chainToInsertedRules chainName []).length +
      (mapGetD t.chainToAppendedRules chainName []).length + n ∧
    (t.insertMode = "insert" →
      (t.expectedHashesForInsertAppendChain chainName n).1 =
        CalculateRuleHashes chainName (mapGetD t.chainToInsertedRules chainName []) ++
        List.replicate n "" ++
        CalculateRuleHashes (chainName ++ "*appends*")
          (mapGetD t.chainToAppendedRules chainName [])) ∧
    (t.insertMode = "append" →
      (t.expectedHashesForInsertAppendChain chainName n).1 =
        List.replicate n "" ++
        CalculateRuleHashes chainName (mapGetD t.chainToInsertedRules chainName []) ++
        CalculateRuleHashes (chainName ++ "*appends*")
          (mapGetD t.chainToAppendedRules chainName [])) := by
  set ins := mapGetD t.chainToInsertedRules chainName [] with hins
  set app := mapGetD t.chainToAppendedRules chainName [] with happ
  have hInsH : (if ins.length > 0 then CalculateRuleHashes chainName ins else []) =
      CalculateRuleHashes chainName ins := by
    split
    · rfl
    · rename_i h
      have h0 : ins = [] := List.length_eq_zero.mp (by omega)
      rw [h0]
      rfl
  have hAppH : (if app.length > 0 then CalculateRuleHashes (chainName ++ "*appends*") app
      else []) = CalculateRuleHashes (chainName ++ "*appends*") app := by
    split
    · rfl
    · rename_i h
      have h0 : app = [] := List.length_eq_zero.mp (by omega)
      rw [h0]
      rfl
  have h1 : (t.expectedHashesForInsertAppendChain chainName n).1 =
      writeFrom (writeFrom (List.replicate (ins.length + app.length + n) "")
          (if t.insertMode = "append" then n else 0)
          (CalculateRuleHashes chainName ins))
        (ins.length + n)
        (CalculateRuleHashes (chainName ++ "*appends*") app) := by
    simp only [Table.expectedHashesForInsertAppendChain, ← hins, ← happ, hInsH, hAppH]
  refine ⟨?_, ?_, ?_⟩
  · rw [h1, writeFrom_length, writeFrom_length]
    simp
  · intro hmode
    rw [h1, hmode]
    have : (("insert" : String) = "append") = False := by simp
    rw [if_neg (by simp)]
    rw [← CalculateRuleHashes_length chainName ins,
        ← CalculateRuleHashes_length (chainName ++ "*appends*") app]
    exact writeFrom_layout_insert n _ _
  · intro hmode
    rw [h1, hmode, if_pos rfl]
    rw [← CalculateRuleHashes_length chainName ins,
        ← CalculateRuleHashes_length (chainName ++ "*appends*") app]
    exact writeFrom_layout_append n _ _

/-- C6 witness: the insert-mode layout at a fresh `test` table, chain
`FORWARD`, one foreign rule. -/
theorem c6_expected_hashes_layout_witness :
    ((NewTable "test" "cali:" ["cali"] "" 0 0 0).expectedHashesForInsertAppendChain
        "FORWARD" 1).1 =
      CalculateRuleHashes "FORWARD"
        (mapGetD (NewTable "test" "cali:" ["cali"] "" 0 0 0).chainToInsertedRules "FORWARD" []) ++
      List.replicate 1 "" ++
      CalculateRuleHashes ("FORWARD" ++ "*appends*")
        (mapGetD (NewTable "test" "cali:" ["cali"] "" 0 0 0).chainToAppendedRules "FORWARD" []) :=
  (c6_expected_hashes_layout (NewTable "test" "cali:" ["cali"] "" 0 0 0) "FORWARD" 1).2.1
    (by decide)

/-- A string of length zero is the empty string. -/
theorem string_length_eq_zero (s : String) (h : s.length = 0) : s = "" := by
  rw [String.ext_iff]
  simpa using List.length_eq_zero.mp h

/-- C8: for every rule, when the prefix fragment, the rendered match
fragment and the rendered action fragment (empty also when the action is
nil) are all empty, `renderInner` on an empty initial fragment list — as
used by `Render` — yields exactly the literal `counter`; otherwise it is
the non-empty fragments joined by single spaces, in prefix, match,
action order. -/
theorem c8_render_inner_counter (r : Rule) (p : String) :
    r.renderInner [] p =
      if p = "" ∧ r.Match.Render = "" ∧ specActionFragment r = "" then "counter"
      else stringsJoin " "
        ([p, r.Match.Render, specActionFragment r].filter (fun s => s != "")) := by
  rcases r with ⟨⟨mf, msets⟩, act, com⟩
  cases act with
  | none =>
    by_cases hp : p = "" <;> by_cases hm : mf = "" <;>
      simp [Rule.renderInner, MatchCriteria.Render, specActionFragment, hp, hm, stringsJoin] <;>
      (intro h0; exact absurd (string_length_eq_zero _ h0) (by assumption))
  | some a =>
    by_cases hp : p = "" <;> by_cases hm : mf = "" <;> by_cases ha : a.ToFragment = "" <;>
      simp [Rule.renderInner, MatchCriteria.Render, specActionFragment, hp, hm, ha,
        stringsJoin] <;>
      (intro h0; exact absurd (string_length_eq_zero _ h0) (by assumption))

/-- Keeping, from a zipped and filtered list, the first components gives
a sublist of the original first components. -/
theorem zip_filter_map_fst_sublist (p : String → Bool) (rules : List Rule) :
    ∀ hs : List String,
      (((rules.zip hs).filter (fun q => p q.2)).map (fun q => q.1)).Sublist rules := by
  induction rules with
  | nil => intro hs; simp
  | cons r rest ih =>
    intro hs
    cases hs with
    | nil => simp
    | cons h hs' =>
      by_cases hp : p h
      · simpa [hp] using List.Sublist.cons₂ r (ih hs')
      · simpa [hp] using List.Sublist.cons r (ih hs')

/-- C9: `CheckRulesPresent` performs a fresh dataplane read but leaves
every desired-state and observed-state cache untouched — only the
peak-read-time estimate changes — and returns, in input order, exactly
the input rules whose positional fingerprint occurs among the chain's
observed hashes (the empty list when none match, Go's nil). -/
theorem c9_check_rules_present_frame (t : Table) (dp : Dataplane) (readDur : Int)
    (chain : String) (rules : List Rule) :
    (t.CheckRulesPresent dp readDur chain rules).1.chainNameToChain = t.chainNameToChain ∧
    (t.CheckRulesPresent dp readDur chain rules).1.chainToInsertedRules = t.chainToInsertedRules ∧
    (t.CheckRulesPresent dp readDur chain rules).1.chainToAppendedRules = t.chainToAppendedRules ∧
    (t.CheckRulesPresent dp readDur chain rules).1.chainRefCounts = t.chainRefCounts ∧
    (t.CheckRulesPresent dp readDur chain rules).1.dirtyChains = t.dirtyChains ∧
    (t.CheckRulesPresent dp readDur chain rules).1.dirtyInsertAppend = t.dirtyInsertAppend ∧
    (t.CheckRulesPresent dp readDur chain rules).1.chainToDataplaneHashes =
      t.chainToDataplaneHashes ∧
    (t.CheckRulesPresent dp readDur chain rules).1.chainToFullRules = t.chainToFullRules ∧
    (t.CheckRulesPresent dp readDur chain rules).1.inSyncWithDataPlane = t.inSyncWithDataPlane ∧
    (t.CheckRulesPresent dp readDur chain rules).1.lastReadTime = t.lastReadTime ∧
    ((t.CheckRulesPresent dp readDur chain rules).2).Sublist rules ∧
    (t.CheckRulesPresent dp readDur chain rules).2 =
      ((rules.zip (CalculateRuleHashes chain rules)).filter
        (fun q => (mapGetD (dataplaneReadHashes t.hashCommentMark dp) chain []).contains q.2)).map
      (fun q => q.1) := by
  refine ⟨rfl, rfl, rfl, rfl, rfl, rfl, rfl, rfl, rfl, rfl, ?_, rfl⟩
  exact zip_filter_map_fst_sublist _ rules _

/-- C10 amended: `InvalidateDataplaneCache` always leaves the table out
of sync and is idempotent and narrow — no field other than
`inSyncWithDataPlane` and `reason` is ever modified — but the given
reason is stored only when the table was in sync; when it was already
out of sync the call is a no-op and the previously stored reason is
kept. -/
theorem c10_invalidate_amended (t : Table) (r r2 : String) :
    (t.InvalidateDataplaneCache r).inSyncWithDataPlane = false ∧
    (t.inSyncWithDataPlane = true → (t.InvalidateDataplaneCache r).reason = r) ∧
    (t.inSyncWithDataPlane = false → t.InvalidateDataplaneCache r = t) ∧
    ((t.InvalidateDataplaneCache r).InvalidateDataplaneCache r2 = t.InvalidateDataplaneCache r) ∧
    (t.InvalidateDataplaneCache r).Name = t.Name ∧
    (t.InvalidateDataplaneCache r).chainToInsertedRules = t.chainToInsertedRules ∧
    (t.InvalidateDataplaneCache r).chainToAppendedRules = t.chainToAppendedRules ∧
    (t.InvalidateDataplaneCache r).dirtyInsertAppend = t.dirtyInsertAppend ∧
    (t.InvalidateDataplaneCache r).chainNameToChain = t.chainNameToChain ∧
    (t.InvalidateDataplaneCache r).chainRefCounts = t.chainRefCounts ∧
    (t.InvalidateDataplaneCache r).dirtyChains = t.dirtyChains ∧
    (t.InvalidateDataplaneCache r).chainToDataplaneHashes = t.chainToDataplaneHashes ∧
    (t.InvalidateDataplaneCache r).chainToFullRules = t.chainToFullRules ∧
    (t.InvalidateDataplaneCache r).hashCommentMark = t.hashCommentMark ∧
    (t.InvalidateDataplaneCache r).ourChainsPatterns = t.ourChainsPatterns ∧
    (t.InvalidateDataplaneCache r).insertMode = t.insertMode ∧
    (t.InvalidateDataplaneCache r).lastReadTime = t.lastReadTime ∧
    (t.InvalidateDataplaneCache r).lastWriteTime = t.lastWriteTime ∧
    (t.InvalidateDataplaneCache r).initialPostWriteInterval = t.initialPostWriteInterval ∧
    (t.InvalidateDataplaneCache r).postWriteInterval = t.postWriteInterval ∧
    (t.InvalidateDataplaneCache r).refreshInterval = t.refreshInterval ∧
    (t.InvalidateDataplaneCache r).peakNftablesReadTime = t.peakNftablesReadTime ∧
    (t.InvalidateDataplaneCache r).peakNftablesWriteTime = t.peakNftablesWriteTime := by
  cases h : t.inSyncWithDataPlane <;> simp [Table.InvalidateDataplaneCache, h]

/-- C10 witness: on the already-out-of-sync `tableC10` the call is a
no-op (applies the amended theorem, discharging its hypothesis). -/
theorem c10_invalidate_amended_witness :
    tableC10.InvalidateDataplaneCache "new" = tableC10 :=
  (c10_invalidate_amended tableC10 "new" "x").2.2.1 (by decide)

/-- The first reconciliation loop never touches the comment mark. -/
theorem loadCheckStep_mark (dpHashes : List (String × List String)) (t : Table)
    (e : String × List String) :
    (loadCheckStep dpHashes t e).hashCommentMark = t.hashCommentMark := by
  unfold loadCheckStep
  dsimp only
  repeat' split
  all_goals rfl

/-- The scan loop never touches the comment mark. -/
theorem loadScanStep_mark (t : Table) (e : String × List String) :
    (loadScanStep t e).hashCommentMark = t.hashCommentMark := by
  unfold loadScanStep
  dsimp only
  repeat' split
  all_goals rfl

/-- Folding a mark-preserving step preserves the mark. -/
theorem foldl_mark {α : Type} (f : Table → α → Table)
    (hf : ∀ t x, (f t x).hashCommentMark = t.hashCommentMark) :
    ∀ (l : List α) (t : Table), (l.foldl f t).hashCommentMark = t.hashCommentMark := by
  intro l
  induction l with
  | nil => intro t; rfl
  | cons x xs ih => intro t; rw [List.foldl_cons, ih, hf]

/-- After `loadDataplaneState` the observed-state caches hold exactly
what was read from the dataplane and the table is marked in sync. -/
theorem loadDataplaneState_reads (t : Table) (dp : Dataplane) (now readDur : Int) :
    (t.loadDataplaneState dp now readDur).chainToDataplaneHashes =
      dataplaneReadHashes t.hashCommentMark dp ∧
    (t.loadDataplaneState dp now readDur).chainToFullRules = dp.chains ∧
    (t.loadDataplaneState dp now readDur).inSyncWithDataPlane = true :=
  ⟨rfl, rfl, rfl⟩

/-- `loadDataplaneState` preserves the comment mark. -/
theorem loadDataplaneState_mark (t : Table) (dp : Dataplane) (now readDur : Int) :
    (t.loadDataplaneState dp now readDur).hashCommentMark = t.hashCommentMark := by
  show (List.foldl loadScanStep _ _).hashCommentMark = t.hashCommentMark
  rw [foldl_mark loadScanStep loadScanStep_mark,
      foldl_mark (loadCheckStep _) (loadCheckStep_mark _)]

/-- C4 amended: after every `applyUpdates` (hence `Apply`) that returns
successfully, the state reflects the trailing `loadDataplaneState`
re-read, not the committed merge: the table is in sync and
`chainToDataplaneHashes`/`chainToFullRules` equal the fingerprints and
rules extracted from the post-commit dataplane.  The dirty sets are
whatever that re-read marks out of sync, and need not be empty
(see the counterexample). -/
theorem c4_amended_reload_wins (t : Table) (dp : Dataplane) (now readDur : Int)
    (t2 : Table) (dp2 : Dataplane)
    (h : t.applyUpdates dp now readDur = some (t2, dp2)) :
    t2.inSyncWithDataPlane = true ∧
    t2.chainToDataplaneHashes = dataplaneReadHashes t2.hashCommentMark dp2 ∧
    t2.chainToFullRules = dp2.chains := by
  unfold Table.applyUpdates at h
  cases hcore : t.applyUpdatesCore dp now with
  | none => rw [hcore] at h; simp at h
  | some pr =>
    rw [hcore] at h
    simp only [Option.some.injEq] at h
    have h1 : pr.1.loadDataplaneState pr.2 now readDur = t2 := congrArg Prod.fst h
    have h2 : pr.2 = dp2 := congrArg Prod.snd h
    subst h2
    subst h1
    refine ⟨(loadDataplaneState_reads _ _ _ _).2.2, ?_, (loadDataplaneState_reads _ _ _ _).2.1⟩
    rw [(loadDataplaneState_reads _ _ _ _).1, loadDataplaneState_mark]

/-- C4 amended witness: the amended theorem applied to the concrete
successful run of the counterexample scenario. -/
theorem c4_amended_reload_wins_witness :
    (tableC4Loaded.applyUpdates dataplaneC4 0 0).map (fun p => p.1.inSyncWithDataPlane) =
      some true := by
  cases hres : tableC4Loaded.applyUpdates dataplaneC4 0 0 with
  | none =>
    have hsome : (tableC4Loaded.applyUpdates dataplaneC4 0 0).isSome = true := by decide
    rw [hres] at hsome
    simp at hsome
  | some pr =>
    have hmain := c4_amended_reload_wins tableC4Loaded dataplaneC4 0 0 pr.1 pr.2 hres
    simp [hmain.1]
